import Mathlib

/-!
Verification development for `scale_images.py`: a batch converter that scales
images in a folder to six square PNG sizes using either a letterbox "fit"
transform or a center-crop "cover" transform.

The Python source is embedded shallowly:
* raster images become a structure carrying width, height, PIL mode string,
  EXIF orientation tag and a total pixel function `Int → Int → RGBA`;
* the external resampling filter (PIL's LANCZOS) is an opaque-to-us parameter
  `R : Resample` threaded through every definition that resizes pixels, so
  both transforms provably use the same filter;
* PIL's floating-point `thumbnail` size computation is embedded exactly over
  `ℚ` (the float expressions `w / h`, `y * aspect`, … are rational for the
  integer inputs involved, so `ℚ` is a faithful model of the intent);
* the file system, the per-name save errors and the CLI argument vector are
  explicit values, and `main` returns the exit code, console lines and the
  list of written `(name, image)` outputs.
-/

namespace ScaleImages

/-- One pixel: red, green, blue, alpha channels (each a byte in practice). -/
structure RGBA where
  r : Nat
  g : Nat
  b : Nat
  a : Nat
deriving DecidableEq

/-- A decoded raster image: dimensions, PIL mode string, EXIF orientation tag
(1 = upright / no rotation needed) and a total pixel function; only
coordinates `0 ≤ x < width`, `0 ≤ y < height` are meaningful. -/
structure Img where
  width : Nat
  height : Nat
  mode : String
  orientation : Nat
  pix : Int → Int → RGBA

/-- The fully transparent pixel used for `Image.new("RGBA", _, (0, 0, 0, 0))`. -/
def Transparent : RGBA := RGBA.mk 0 0 0 0

/-- An abstract resampling filter: given the source image and the target
dimensions it produces the pixel at each target coordinate.  It stands for
`Image.Resampling.LANCZOS`, whose numerics live in the external library. -/
def Resample : Type := Img → Nat → Nat → Int → Int → RGBA

/-- `ImageOps.exif_transpose`: apply the rotation/flip encoded by the EXIF
orientation tag (2–8) to the pixel raster and clear the tag. -/
def exif_transpose (img : Img) : Img :=
  let w : Int := img.width
  let h : Int := img.height
  match img.orientation with
  | 2 => { img with orientation := 1, pix := fun x y => img.pix (w - 1 - x) y }
  | 3 => { img with orientation := 1, pix := fun x y => img.pix (w - 1 - x) (h - 1 - y) }
  | 4 => { img with orientation := 1, pix := fun x y => img.pix x (h - 1 - y) }
  | 5 =>
    { img with
      orientation := 1, width := img.height, height := img.width,
      pix := fun x y => img.pix y x }
  | 6 =>
    { img with
      orientation := 1, width := img.height, height := img.width,
      pix := fun x y => img.pix y (h - 1 - x) }
  | 7 =>
    { img with
      orientation := 1, width := img.height, height := img.width,
      pix := fun x y => img.pix (w - 1 - y) (h - 1 - x) }
  | 8 =>
    { img with
      orientation := 1, width := img.height, height := img.width,
      pix := fun x y => img.pix (w - 1 - y) x }
  | _ => { img with orientation := 1 }

/-- `img.convert("RGBA")` for a source mode without an alpha channel: the
color channels are kept and the alpha channel becomes fully opaque. -/
def convert_RGBA (img : Img) : Img :=
  { img with
    mode := "RGBA",
    pix := fun x y => RGBA.mk (img.pix x y).r (img.pix x y).g (img.pix x y).b 255 }

/-- `img.resize((w, h), LANCZOS)` with the abstract filter `R`. -/
def resizeWith (R : Resample) (img : Img) (w h : Nat) : Img :=
  { img with width := w, height := h, pix := R img w h }

/-- PIL's `round_aspect(number, key)` helper inside `Image.thumbnail`:
`max(min(math.floor(number), math.ceil(number), key=key), 1)` (Python's
two-argument `min` with a key returns the first argument on ties). -/
def roundAspect (q : ℚ) (key : ℤ → ℚ) : ℤ :=
  max (if key ⌈q⌉ < key ⌊q⌋ then ⌈q⌉ else ⌊q⌋) 1

/-- The target dimensions computed by `Image.thumbnail((s, s), …)` for a
source of `w × h`: unchanged when it already fits, otherwise the aspect-ratio
preserving reduction rounded by `round_aspect`.  PIL's float arithmetic is
modelled exactly over `ℚ`. -/
def thumbDims (w h s : Nat) : Nat × Nat :=
  if s ≥ w ∧ s ≥ h then (w, h)
  else
    let aspect : ℚ := (w : ℚ) / (h : ℚ)
    if aspect ≤ (s : ℚ) / (s : ℚ) then
      let x := roundAspect ((s : ℚ) * aspect) (fun n => |aspect - (n : ℚ) / (s : ℚ)|)
      (x.toNat, s)
    else
      let y := roundAspect ((s : ℚ) / aspect)
        (fun n => if n = 0 then 0 else |aspect - (s : ℚ) / (n : ℚ)|)
      (s, y.toNat)

/-- `img.thumbnail((s, s), LANCZOS)` (on a copy): in-place aspect-preserving
downscale; the image is only resized when the computed size differs. -/
def thumbnailWith (R : Resample) (img : Img) (s : Nat) : Img :=
  let d := thumbDims img.width img.height s
  if d = (img.width, img.height) then img else resizeWith R img d.1 d.2

/-- Per-channel blend used by `canvas.paste(src, box, mask)` with an RGBA
mask: `out = (src * a + dst * (255 - a)) / 255` where `a` is the mask alpha. -/
def mixChannel (dc sc a : Nat) : Nat := (sc * a + dc * (255 - a)) / 255

/-- Blend a source pixel onto a destination pixel using the source's own
alpha as mask (the `canvas.paste(img_thumb, (x, y), img_thumb)` call). -/
def blend (d s : RGBA) : RGBA :=
  RGBA.mk (mixChannel d.r s.r s.a) (mixChannel d.g s.g s.a)
    (mixChannel d.b s.b s.a) (mixChannel d.a s.a s.a)

/-- `canvas.paste(src, (px, py), src)`: inside the pasted box the source is
blended over the canvas through its own alpha channel, outside the box the
canvas is untouched. -/
def pasteMask (canvas src : Img) (px py : Int) : Img :=
  { canvas with
    pix := fun x y =>
      if px ≤ x ∧ x < px + src.width ∧ py ≤ y ∧ y < py + src.height then
        blend (canvas.pix x y) (src.pix (x - px) (y - py))
      else
        canvas.pix x y }

/-- The image actually thumbnailed by `make_square_fit`: the source after
EXIF normalization, converted to RGBA unless its mode already carries alpha
(`RGBA` or `LA`). -/
def fitSource (img : Img) : Img :=
  let i1 := exif_transpose img
  if i1.mode = "RGBA" ∨ i1.mode = "LA" then i1 else convert_RGBA i1

/-- `make_square_fit(img, size)`: EXIF-normalize, ensure alpha, thumbnail to
at most `size × size`, paste centered on a fully transparent RGBA canvas. -/
def make_square_fit (R : Resample) (img : Img) (size : Nat) : Img :=
  let img_thumb := thumbnailWith R (fitSource img) size
  let canvas : Img :=
    { width := size, height := size, mode := "RGBA", orientation := 1,
      pix := fun _ _ => Transparent }
  let x := ((size : Int) - img_thumb.width).fdiv 2
  let y := ((size : Int) - img_thumb.height).fdiv 2
  pasteMask canvas img_thumb x y

/-- `img.crop((left, top, right, bottom))`. -/
def crop (img : Img) (left top right bottom : Int) : Img :=
  { img with
    width := (right - left).toNat, height := (bottom - top).toNat,
    pix := fun x y => img.pix (left + x) (top + y) }

/-- `make_square_cover(img, size)`: EXIF-normalize, crop the largest centered
inscribed square, resize it to `size × size`, then ensure an alpha channel. -/
def make_square_cover (R : Resample) (img : Img) (size : Nat) : Img :=
  let img1 := exif_transpose img
  let w := img1.width
  let h := img1.height
  let side := min w h
  let left := ((w : Int) - side).fdiv 2
  let top := ((h : Int) - side).fdiv 2
  let img_cropped := crop img1 left top (left + side) (top + side)
  let img_resized := resizeWith R img_cropped size size
  if img_resized.mode = "RGBA" ∨ img_resized.mode = "LA" then img_resized
  else convert_RGBA img_resized

/-- The fixed list of target square sizes. -/
def SIZES : List Nat := [1024, 512, 256, 128, 64, 32]

/-- The fixed allow-list of input extensions (compared lowercased). -/
def SUPPORTED_SUFFIXES : List String :=
  [".jpg", ".jpeg", ".png", ".webp", ".bmp", ".tif", ".tiff", ".heic"]

/-- ASCII model of Python's `str.lower()`. -/
def lowerStr (s : String) : String := String.mk (s.data.map Char.toLower)

/-- Index of the last `'.'` in a file name, if any (`str.rfind('.')`). -/
def lastDotIdx (name : String) : Option Nat :=
  match name.data.reverse.findIdx? (fun c => c = '.') with
  | none => none
  | some j => some (name.data.length - 1 - j)

/-- `pathlib.PurePath.suffix`: extension including the dot, empty for names
with no dot, a leading dot only, or a trailing dot. -/
def pathSuffix (name : String) : String :=
  match lastDotIdx name with
  | some i =>
    if 0 < i ∧ i < name.data.length - 1 then String.mk (name.data.drop i) else ""
  | none => ""

/-- `pathlib.PurePath.stem`: the name without `pathSuffix`. -/
def pathStem (name : String) : String :=
  match lastDotIdx name with
  | some i =>
    if 0 < i ∧ i < name.data.length - 1 then String.mk (name.data.take i) else name
  | none => name

/-- One file of the input directory: its name, whether it is a regular file,
and the result of opening and decoding it with PIL. -/
structure SrcFile where
  name : String
  isFile : Bool
  decode : Except String Img

/-- The write environment: for every output file name, `none` when
`out_img.save` succeeds and `some msg` when it raises with message `msg`. -/
structure Env where
  saveErr : String → Option String

/-- The visible file system: which paths are existing directories, and the
immediate entries of each directory (`Path.iterdir`). -/
structure FS where
  isDir : String → Bool
  entries : String → List SrcFile

/-- The size portion of an output file name. -/
def sizeTag (s : Nat) : String :=
  "_" ++ toString s ++ "x" ++ toString s ++ ".png"

/-- The output file name for a source stem and a size. -/
def outName (st : String) (s : Nat) : String := st ++ sizeTag s

/-- The loop body of `process_image`: transform and save each size in turn.
A failing save aborts the loop; everything saved before it stays written. -/
def saveLoop (R : Resample) (env : Env) (mode : String) (st : String) (img : Img) :
    List Nat → List (String × Img) → List (String × Img) × Option String
  | [], acc => (acc, none)
  | s :: rest, acc =>
    let out_img := if mode = "cover" then make_square_cover R img s
      else make_square_fit R img s
    match env.saveErr (outName st s) with
    | some e => (acc, some e)
    | none => saveLoop R env mode st img rest (acc ++ [(outName st s, out_img)])

/-- `process_image(in_path, out_dir, mode)`: the whole body runs inside one
try/except; the result is the list of files written and the console line. -/
def process_image (R : Resample) (env : Env) (dir : String) (f : SrcFile)
    (mode : String) : List (String × Img) × String :=
  match f.decode with
  | Except.error e => ([], "FEHLER bei " ++ dir ++ "/" ++ f.name ++ ": " ++ e)
  | Except.ok img =>
    match saveLoop R env mode (pathStem f.name) img SIZES [] with
    | (outs, some e) => (outs, "FEHLER bei " ++ dir ++ "/" ++ f.name ++ ": " ++ e)
    | (outs, none) => (outs, "OK  : " ++ f.name)

/-- Byte-wise `≤` on names, Python's string comparison (by code point). -/
def lexLe : List Char → List Char → Bool
  | [], _ => true
  | _ :: _, [] => false
  | a :: as, b :: bs => if a = b then lexLe as bs else decide (a < b)

/-- Whether file `f` sorts no later than file `g` (`sorted` on paths of one
directory compares the file names). -/
def nameLe (f g : SrcFile) : Bool := lexLe f.name.data g.name.data

/-- Insert into a name-sorted list, keeping earlier-inserted equals last
(this makes the sort stable like Python's `sorted`). -/
def insertByName (x : SrcFile) : List SrcFile → List SrcFile
  | [] => [x]
  | y :: ys => if nameLe x y then x :: y :: ys else y :: insertByName x ys

/-- Stable insertion sort by file name. -/
def sortByName : List SrcFile → List SrcFile
  | [] => []
  | x :: xs => insertByName x (sortByName xs)

/-- The selection predicate of the batch driver:
`p.is_file() and p.suffix.lower() in SUPPORTED_SUFFIXES`. -/
def matchesExt (f : SrcFile) : Bool :=
  f.isFile && SUPPORTED_SUFFIXES.contains (lowerStr (pathSuffix f.name))

/-- `sorted(p for p in in_dir.iterdir() if …)`. -/
def selectImages (fs : FS) (dir : String) : List SrcFile :=
  sortByName ((fs.entries dir).filter matchesExt)

/-- Model of the module docstring printed on missing arguments. -/
def docText : String :=
  "Scale images in a folder to multiple square sizes and save as PNG. Usage: python scale_images.py input output"

/-- Console line for an unrecognized mode. -/
def badModeText : String := "Ungültiger --mode. Erlaubt: fit | cover"

/-- Console line for an empty match set. -/
def noFilesText : String :=
  "Keine unterstützten Bilddateien im Eingabeordner gefunden."

/-- The announcement line printed before processing. -/
def headerLine (n : Nat) (din dout mode : String) : String :=
  "Verarbeite " ++ toString n ++ " Dateien aus " ++ din ++ " → " ++ dout
    ++ " (mode=" ++ mode ++ ")"

/-- Literal `"--mode="`. -/
def modeAssign : String := "--mode="

/-- The mode value `sys.argv[3]` normalizes to: lowercase it, accept the two
bare and the two `--mode=` spellings, strip a `--mode=` prefix otherwise,
else keep the lowercased string. -/
def normalizeMode (arg : String) : String :=
  let m := lowerStr arg
  if m = "fit" ∨ m = "--mode=fit" then "fit"
  else if m = "cover" ∨ m = "--mode=cover" then "cover"
  else if m.startsWith modeAssign then String.mk ((m.data.dropWhile (fun c => c ≠ '=')).drop 1)
  else m

/-- What one run of the program produces: the exit status, the console lines
in order, and every `(file name, image)` written to the output directory in
write order. -/
structure RunResult where
  exitCode : Nat
  lines : List String
  outputs : List (String × Img)

/-- The batch phase of `main`, after argument parsing fixed the mode:
validate the input directory, select and sort the matched files, and process
each one (`process_image` never raises, so the loop always completes and the
program falls off `main` with exit status 0). -/
def mainWithMode (R : Resample) (env : Env) (fs : FS) (din dout mode : String) :
    RunResult :=
  if fs.isDir din = true then
    if (selectImages fs din).isEmpty then
      { exitCode := 0, lines := [noFilesText], outputs := [] }
    else
      let images := selectImages fs din
      let results := images.map (fun f => process_image R env din f mode)
      { exitCode := 0,
        lines := headerLine images.length din dout mode :: results.map Prod.snd,
        outputs := (results.map Prod.fst).flatten }
  else
    { exitCode := 1, lines := ["Eingabeordner nicht gefunden: " ++ din], outputs := [] }

/-- `main()`: argument count check, mode parsing, then the batch phase.
`argv` includes the program name in position 0, as `sys.argv` does. -/
def main (R : Resample) (argv : List String) (fs : FS) (env : Env) : RunResult :=
  if argv.length < 3 then
    { exitCode := 1, lines := [docText], outputs := [] }
  else
    let din := argv.getD 1 ""
    let dout := argv.getD 2 ""
    if argv.length ≥ 4 then
      let mode := normalizeMode (argv.getD 3 "")
      if mode = "fit" ∨ mode = "cover" then
        mainWithMode R env fs din dout mode
      else
        { exitCode := 2, lines := [badModeText], outputs := [] }
    else
      mainWithMode R env fs din dout "fit"

/-- The state of the output directory after a list of writes: a later write
to the same name overwrites the earlier one in place. -/
def upsertDisk : List (String × Img) → String → Img → List (String × Img)
  | [], n, i => [(n, i)]
  | (m, j) :: rest, n, i =>
    if m = n then (n, i) :: rest else (m, j) :: upsertDisk rest n i

/-- Fold a write list into the resulting directory contents. -/
def writeAll (outs : List (String × Img)) : List (String × Img) :=
  outs.foldl (fun d p => upsertDisk d p.1 p.2) []

/-! ### Witness fixtures: a constant resampler, tiny images, small file systems -/

/-- A concrete deterministic resampling filter used to instantiate theorems. -/
def R0 : Resample := fun _ _ _ _ _ => Transparent

/-- A concrete opaque resampling filter. -/
def ROpaque : Resample := fun _ _ _ _ _ => RGBA.mk 0 0 0 255

/-- A 2 × 1 upright RGB test image. -/
def imgW : Img := Img.mk 2 1 "RGB" 1 (fun _ _ => RGBA.mk 10 20 30 255)

/-- A decodable test file. -/
def fileW : SrcFile := SrcFile.mk "photo.jpg" true (Except.ok imgW)

/-- A second decodable test file with the same stem as `fileW`. -/
def fileW2 : SrcFile := SrcFile.mk "photo.png" true (Except.ok imgW)

/-- A file whose decode fails. -/
def fileErr : SrcFile := SrcFile.mk "bad.png" true (Except.error ("cannot identify image file"))

/-- A decodable file with a one-letter stem. -/
def fileA : SrcFile := SrcFile.mk "a.jpg" true (Except.ok imgW)

/-- A write environment where every save succeeds. -/
def envOk : Env := Env.mk (fun _ => none)

/-- A write environment where saving `a_256x256.png` (the third target size)
fails and every other save succeeds. -/
def envFail256 : Env :=
  Env.mk (fun n => if n == "a_256x256.png" then some ("disk full") else none)

/-- A file system whose only directory `in` holds `fileW`. -/
def fs0 : FS := FS.mk (fun d => d == "in") (fun d => if d == "in" then [fileW] else [])

/-- A file system whose directory `in` holds both same-stem files. -/
def fs2 : FS :=
  FS.mk (fun d => d == "in") (fun d => if d == "in" then [fileW, fileW2] else [])

/-! ### Lemmas about the save loop and the per-file driver -/

theorem saveLoop_clean (R : Resample) (env : Env) (mode st : String) (img : Img)
    (hsave : ∀ n, env.saveErr n = none) (sizes : List Nat) :
    ∀ acc : List (String × Img),
      (saveLoop R env mode st img sizes acc).2 = none ∧
      (saveLoop R env mode st img sizes acc).1.map Prod.fst
        = acc.map Prod.fst ++ sizes.map (outName st) := by
  induction sizes with
  | nil => intro acc; simp [saveLoop]
  | cons s rest ih =>
    intro acc
    simp only [saveLoop, hsave]
    have h := ih (acc ++ [(outName st s,
      if mode = "cover" then make_square_cover R img s else make_square_fit R img s)])
    simpa using h

theorem saveLoop_names_take (R : Resample) (env : Env) (mode st : String) (img : Img)
    (sizes : List Nat) :
    ∀ acc : List (String × Img), ∃ k,
      (saveLoop R env mode st img sizes acc).1.map Prod.fst
        = acc.map Prod.fst ++ (sizes.map (outName st)).take k := by
  induction sizes with
  | nil => intro acc; exact ⟨0, by simp [saveLoop]⟩
  | cons s rest ih =>
    intro acc
    simp only [saveLoop]
    cases h : env.saveErr (outName st s) with
    | some e => exact ⟨0, by simp⟩
    | none =>
      obtain ⟨k, hk⟩ := ih (acc ++ [(outName st s,
        if mode = "cover" then make_square_cover R img s else make_square_fit R img s)])
      exact ⟨k + 1, by simpa using hk⟩

theorem process_image_ok (R : Resample) (env : Env) (dir : String) (f : SrcFile)
    (mode : String) (img : Img) (hdec : f.decode = Except.ok img)
    (hsave : ∀ n, env.saveErr n = none) :
    (process_image R env dir f mode).1.map Prod.fst
        = SIZES.map (outName (pathStem f.name)) ∧
      (process_image R env dir f mode).2 = "OK  : " ++ f.name := by
  obtain ⟨h2, h1⟩ := saveLoop_clean R env mode (pathStem f.name) img hsave SIZES []
  unfold process_image
  rw [hdec]
  dsimp only
  rcases hl : saveLoop R env mode (pathStem f.name) img SIZES [] with ⟨outs, err⟩
  rw [hl] at h1 h2
  simp at h2
  subst h2
  exact ⟨by simpa using h1, rfl⟩

theorem process_image_decode_error (R : Resample) (env : Env) (dir : String)
    (f : SrcFile) (mode : String) (e : String) (hdec : f.decode = Except.error e) :
    process_image R env dir f mode
      = ([], "FEHLER bei " ++ dir ++ "/" ++ f.name ++ ": " ++ e) := by
  unfold process_image
  rw [hdec]

theorem process_image_names_take (R : Resample) (env : Env) (dir : String)
    (f : SrcFile) (mode : String) : ∃ k,
    (process_image R env dir f mode).1.map Prod.fst
      = (SIZES.map (outName (pathStem f.name))).take k := by
  unfold process_image
  cases hdec : f.decode with
  | error e => exact ⟨0, by simp⟩
  | ok img =>
    obtain ⟨k, hk⟩ := saveLoop_names_take R env mode (pathStem f.name) img SIZES []
    refine ⟨k, ?_⟩
    dsimp only
    rcases hl : saveLoop R env mode (pathStem f.name) img SIZES [] with ⟨outs, err⟩
    rw [hl] at hk
    cases err <;> simpa using hk

/-! ### Lemmas about the batch driver -/

theorem mainWithMode_noDir (R : Resample) (env : Env) (fs : FS)
    (din dout mode : String) (hdir : ¬ fs.isDir din = true) :
    mainWithMode R env fs din dout mode
      = ⟨1, ["Eingabeordner nicht gefunden: " ++ din], []⟩ := by
  unfold mainWithMode
  rw [if_neg hdir]

theorem mainWithMode_empty (R : Resample) (env : Env) (fs : FS)
    (din dout mode : String) (hdir : fs.isDir din = true)
    (hsel : selectImages fs din = []) :
    mainWithMode R env fs din dout mode = ⟨0, [noFilesText], []⟩ := by
  unfold mainWithMode
  rw [if_pos hdir, if_pos (by rw [hsel]; rfl)]

theorem mainWithMode_run (R : Resample) (env : Env) (fs : FS)
    (din dout mode : String) (hdir : fs.isDir din = true)
    (hne : selectImages fs din ≠ []) :
    mainWithMode R env fs din dout mode
      = ⟨0,
          headerLine (selectImages fs din).length din dout mode
            :: (selectImages fs din).map (fun f => (process_image R env din f mode).2),
          ((selectImages fs din).map
            (fun f => (process_image R env din f mode).1)).flatten⟩ := by
  unfold mainWithMode
  rw [if_pos hdir, if_neg (by simp [List.isEmpty_iff, hne])]
  simp [List.map_map]
  rfl

theorem mainWithMode_exit_ne_two (R : Resample) (env : Env) (fs : FS)
    (din dout mode : String) :
    (mainWithMode R env fs din dout mode).exitCode ≠ 2 := by
  unfold mainWithMode
  split
  · split <;> simp
  · simp

theorem main_three (R : Resample) (fs : FS) (env : Env) (p din dout : String) :
    main R [p, din, dout] fs env = mainWithMode R env fs din dout "fit" := rfl

theorem main_four (R : Resample) (fs : FS) (env : Env) (p din dout marg : String)
    (rest : List String) :
    main R (p :: din :: dout :: marg :: rest) fs env
      = if normalizeMode marg = "fit" ∨ normalizeMode marg = "cover" then
          mainWithMode R env fs din dout (normalizeMode marg)
        else ⟨2, [badModeText], []⟩ := by
  unfold main
  rw [if_neg (by simp), if_pos (by simp)]
  rfl

/-- An empty-but-existing input directory, for witnesses. -/
def fsEmpty : FS := FS.mk (fun d => d == "in") (fun _ => [])

/-! ### Geometry lemmas: thumbnail dimensions -/

theorem roundAspect_ge_one (q : ℚ) (key : ℤ → ℚ) : 1 ≤ roundAspect q key :=
  le_max_right _ _

theorem roundAspect_le (q : ℚ) (key : ℤ → ℚ) (s : ℤ) (hs : 1 ≤ s)
    (h : q ≤ (s : ℚ)) : roundAspect q key ≤ s := by
  unfold roundAspect
  have hc : ⌈q⌉ ≤ s := Int.ceil_le.mpr h
  have hf : ⌊q⌋ ≤ s := le_trans (Int.floor_le_ceil q) hc
  exact max_le (by split <;> assumption) hs

theorem roundAspect_close (q : ℚ) (key : ℤ → ℚ) (hq : 0 < q) :
    |((roundAspect q key : ℤ) : ℚ) - q| ≤ 1 := by
  unfold roundAspect
  have hfl : q - 1 < (⌊q⌋ : ℚ) := Int.sub_one_lt_floor q
  have hfu : (⌊q⌋ : ℚ) ≤ q := Int.floor_le q
  have hcl : q ≤ (⌈q⌉ : ℚ) := Int.le_ceil q
  have hcu : (⌈q⌉ : ℚ) < q + 1 := Int.ceil_lt_add_one q
  have hcpos : 0 < ⌈q⌉ := Int.ceil_pos.mpr hq
  split
  · rw [max_eq_left (by omega)]
    rw [abs_le]
    constructor <;> linarith
  · by_cases hfp : 1 ≤ ⌊q⌋
    · rw [max_eq_left hfp]
      rw [abs_le]
      constructor <;> linarith
    · rw [max_eq_right (by omega)]
      have hf0 : (⌊q⌋ : ℚ) ≤ 0 := by exact_mod_cast (by omega : ⌊q⌋ ≤ 0)
      rw [abs_le]
      push_cast
      constructor <;> linarith

theorem thumbDims_spec (w h s : Nat) (hw : 0 < w) (hh : 0 < h) (hs : 0 < s) :
    (thumbDims w h s).1 ≤ s ∧ (thumbDims w h s).2 ≤ s ∧
      0 < (thumbDims w h s).1 ∧ 0 < (thumbDims w h s).2 ∧
      |((thumbDims w h s).1 : ℚ) * (h : ℚ) - ((thumbDims w h s).2 : ℚ) * (w : ℚ)|
        ≤ ((max w h : ℕ) : ℚ) := by
  have hQw : (0 : ℚ) < w := by exact_mod_cast hw
  have hQh : (0 : ℚ) < h := by exact_mod_cast hh
  have hQs : (0 : ℚ) < s := by exact_mod_cast hs
  unfold thumbDims
  split
  next hc =>
    refine ⟨hc.1, hc.2, hw, hh, ?_⟩
    have hz : ((w : ℚ)) * h - (h : ℚ) * w = 0 := by ring
    rw [hz, abs_zero]
    positivity
  next hc =>
    have hss : ((s : ℚ)) / (s : ℚ) = 1 := div_self hQs.ne'
    dsimp only
    split
    next ha =>
      -- aspect ≤ 1: the width is rounded, the height is s
      rw [hss] at ha
      set q : ℚ := (s : ℚ) * ((w : ℚ) / (h : ℚ)) with hqdef
      set r : ℤ := roundAspect q (fun n => |(w : ℚ) / (h : ℚ) - (n : ℚ) / (s : ℚ)|)
        with hrdef
      have hq0 : 0 < q := mul_pos hQs (div_pos hQw hQh)
      have hqle : q ≤ (s : ℚ) := by
        have := mul_le_mul_of_nonneg_left ha (le_of_lt hQs)
        simpa using this
      have hr1 : 1 ≤ r := roundAspect_ge_one q _
      have hrs : r ≤ (s : ℤ) := roundAspect_le q _ (s : ℤ) (by exact_mod_cast hs)
        (by exact_mod_cast hqle)
      have hr0 : (0 : ℤ) ≤ r := by omega
      have hrn : ((r.toNat : ℚ)) = ((r : ℤ) : ℚ) := by
        rw [← Int.toNat_of_nonneg hr0]
        norm_cast
      have hclose : |((r : ℤ) : ℚ) - q| ≤ 1 := roundAspect_close q _ hq0
      refine ⟨by omega, le_refl s, by omega, hs, ?_⟩
      have hqh : q * (h : ℚ) = (s : ℚ) * (w : ℚ) := by
        rw [hqdef]
        field_simp
      have habs : |((r : ℤ) : ℚ) * h - (s : ℚ) * w| ≤ (h : ℚ) := by
        rw [← hqh, ← sub_mul, abs_mul, abs_of_pos hQh]
        calc |((r : ℤ) : ℚ) - q| * h ≤ 1 * h :=
              mul_le_mul_of_nonneg_right hclose (le_of_lt hQh)
          _ = (h : ℚ) := one_mul _
      rw [hrn]
      refine le_trans habs ?_
      exact_mod_cast Nat.le_max_right w h
    next ha =>
      -- aspect > 1: the height is rounded, the width is s
      rw [hss] at ha
      push_neg at ha
      set q : ℚ := (s : ℚ) / ((w : ℚ) / (h : ℚ)) with hqdef
      set r : ℤ := roundAspect q
        (fun n => if n = 0 then 0 else |(w : ℚ) / (h : ℚ) - (s : ℚ) / (n : ℚ)|)
        with hrdef
      have haspect : (0 : ℚ) < (w : ℚ) / (h : ℚ) := div_pos hQw hQh
      have hq0 : 0 < q := div_pos hQs haspect
      have hqle : q ≤ (s : ℚ) := div_le_self (le_of_lt hQs) (le_of_lt ha)
      have hr1 : 1 ≤ r := roundAspect_ge_one q _
      have hrs : r ≤ (s : ℤ) := roundAspect_le q _ (s : ℤ) (by exact_mod_cast hs)
        (by exact_mod_cast hqle)
      have hr0 : (0 : ℤ) ≤ r := by omega
      have hrn : ((r.toNat : ℚ)) = ((r : ℤ) : ℚ) := by
        rw [← Int.toNat_of_nonneg hr0]
        norm_cast
      have hclose : |((r : ℤ) : ℚ) - q| ≤ 1 := roundAspect_close q _ hq0
      refine ⟨le_refl s, by omega, hs, by omega, ?_⟩
      have hqw : q * (w : ℚ) = (s : ℚ) * (h : ℚ) := by
        rw [hqdef]
        field_simp
      have habs : |(s : ℚ) * h - ((r : ℤ) : ℚ) * w| ≤ (w : ℚ) := by
        rw [← hqw, ← sub_mul, abs_mul, abs_of_pos hQw]
        calc |q - ((r : ℤ) : ℚ)| * w ≤ 1 * w := by
              rw [abs_sub_comm]
              exact mul_le_mul_of_nonneg_right hclose (le_of_lt hQw)
          _ = (w : ℚ) := one_mul _
      rw [hrn]
      refine le_trans habs ?_
      exact_mod_cast Nat.le_max_left w h

/-! ### Dimension bookkeeping for the fit pipeline -/

theorem fitSource_width (img : Img) :
    (fitSource img).width = (exif_transpose img).width := by
  unfold fitSource
  dsimp only
  split <;> rfl

theorem fitSource_height (img : Img) :
    (fitSource img).height = (exif_transpose img).height := by
  unfold fitSource
  dsimp only
  split <;> rfl

theorem thumbnailWith_width (R : Resample) (img : Img) (s : Nat) :
    (thumbnailWith R img s).width = (thumbDims img.width img.height s).1 := by
  unfold thumbnailWith
  dsimp only
  split
  next hd => rw [hd]
  next => rfl

theorem thumbnailWith_height (R : Resample) (img : Img) (s : Nat) :
    (thumbnailWith R img s).height = (thumbDims img.width img.height s).2 := by
  unfold thumbnailWith
  dsimp only
  split
  next hd => rw [hd]
  next => rfl

/-! ### Claim C1: the fit transform -/

/-- The dimensions `(w', h')` of the scaled content inside a fit-mode canvas:
the thumbnail dimensions of the orientation-normalized source. -/
def fitContentDims (img : Img) (s : Nat) : Nat × Nat :=
  thumbDims (exif_transpose img).width (exif_transpose img).height s

/-- The conclusion of claim C1: fit output is exactly `s × s` in RGBA mode;
the content dimensions do not exceed `s`; every canvas pixel outside the
content rectangle placed at offsets `((s - w') // 2, (s - h') // 2)` is fully
transparent; and the content dimensions match the source aspect ratio to
within one pixel of rounding (`|w'·h - h'·w| ≤ max w h`). -/
def fitSpec (R : Resample) (img : Img) (s : Nat) : Prop :=
  (make_square_fit R img s).width = s ∧
  (make_square_fit R img s).height = s ∧
  (make_square_fit R img s).mode = "RGBA" ∧
  (fitContentDims img s).1 ≤ s ∧
  (fitContentDims img s).2 ≤ s ∧
  (∀ px py : Int, 0 ≤ px → px < (s : Int) → 0 ≤ py → py < (s : Int) →
    (px < ((s : Int) - (fitContentDims img s).1).fdiv 2 ∨
      ((s : Int) - (fitContentDims img s).1).fdiv 2 + (fitContentDims img s).1 ≤ px ∨
      py < ((s : Int) - (fitContentDims img s).2).fdiv 2 ∨
      ((s : Int) - (fitContentDims img s).2).fdiv 2 + (fitContentDims img s).2 ≤ py) →
    (make_square_fit R img s).pix px py = Transparent) ∧
  |((fitContentDims img s).1 : ℚ) * ((exif_transpose img).height : ℚ)
      - ((fitContentDims img s).2 : ℚ) * ((exif_transpose img).width : ℚ)|
    ≤ ((max (exif_transpose img).width (exif_transpose img).height : ℕ) : ℚ)

theorem thumb_of_fitSource_width (R : Resample) (img : Img) (s : Nat) :
    (thumbnailWith R (fitSource img) s).width = (fitContentDims img s).1 := by
  rw [thumbnailWith_width, fitSource_width, fitSource_height]
  rfl

theorem thumb_of_fitSource_height (R : Resample) (img : Img) (s : Nat) :
    (thumbnailWith R (fitSource img) s).height = (fitContentDims img s).2 := by
  rw [thumbnailWith_height, fitSource_width, fitSource_height]
  rfl

/-- Claim C1: for every decoded source with positive normalized dimensions
and every target size, the fit transform letterboxes without cropping: an
`s × s` fully transparent RGBA canvas with the aspect-preserving content
centered at the stated offsets. -/
theorem spec_C1 (R : Resample) (img : Img) (s : Nat) (hs : s ∈ SIZES)
    (hw : 0 < (exif_transpose img).width)
    (hh : 0 < (exif_transpose img).height) : fitSpec R img s := by
  have hs0 : 0 < s := by
    simp only [SIZES, List.mem_cons, List.not_mem_nil, or_false] at hs
    rcases hs with rfl | rfl | rfl | rfl | rfl | rfl <;> norm_num
  obtain ⟨h1, h2, h3, h4, h5⟩ :=
    thumbDims_spec (exif_transpose img).width (exif_transpose img).height s hw hh hs0
  refine ⟨rfl, rfl, rfl, h1, h2, ?_, h5⟩
  intro px py hpx0 hpxs hpy0 hpys hout
  have hTw := thumb_of_fitSource_width R img s
  have hTh := thumb_of_fitSource_height R img s
  simp only [make_square_fit, pasteMask]
  rw [hTw, hTh]
  rw [if_neg ?hc]
  case hc => omega

/-- Witness for C1 at a concrete 2 × 1 image and size 32. -/
theorem spec_C1_witness :
    32 ∈ SIZES ∧ 0 < (exif_transpose imgW).width ∧
      0 < (exif_transpose imgW).height ∧ fitSpec R0 imgW 32 :=
  ⟨by decide, by decide, by decide,
    spec_C1 R0 imgW 32 (by decide) (by decide) (by decide)⟩

/-! ### Claim C8: fit never upscales -/

/-- The conclusion of claim C8: when the normalized source already fits in
the target square, the thumbnail step leaves it untouched, and the canvas
shows the source (blended over transparency) at its original dimensions,
centered — not enlarged. -/
def noUpscaleSpec (R : Resample) (img : Img) (s : Nat) : Prop :=
  fitContentDims img s
      = ((exif_transpose img).width, (exif_transpose img).height) ∧
  thumbnailWith R (fitSource img) s = fitSource img ∧
  (∀ i j : Int, 0 ≤ i → i < ((exif_transpose img).width : Int) →
    0 ≤ j → j < ((exif_transpose img).height : Int) →
    (make_square_fit R img s).pix
        (((s : Int) - (exif_transpose img).width).fdiv 2 + i)
        (((s : Int) - (exif_transpose img).height).fdiv 2 + j)
      = blend Transparent ((fitSource img).pix i j))

/-- Claim C8: a source no larger than the target size is pasted at its
original (orientation-normalized) dimensions and never upscaled. -/
theorem spec_C8 (R : Resample) (img : Img) (s : Nat)
    (hw : (exif_transpose img).width ≤ s)
    (hh : (exif_transpose img).height ≤ s) : noUpscaleSpec R img s := by
  have hd : fitContentDims img s
      = ((exif_transpose img).width, (exif_transpose img).height) := by
    unfold fitContentDims thumbDims
    rw [if_pos ⟨hw, hh⟩]
  have hd' : thumbDims (fitSource img).width (fitSource img).height s
      = ((fitSource img).width, (fitSource img).height) := by
    rw [fitSource_width, fitSource_height]
    exact hd
  have hT : thumbnailWith R (fitSource img) s = fitSource img := by
    unfold thumbnailWith
    dsimp only
    rw [if_pos hd']
  refine ⟨hd, hT, ?_⟩
  intro i j hi0 hiw hj0 hjh
  simp only [make_square_fit, pasteMask, hT]
  rw [fitSource_width, fitSource_height]
  rw [if_pos ?hc]
  case hc =>
    refine ⟨by omega, by omega, by omega, by omega⟩
  rw [add_sub_cancel_left, add_sub_cancel_left]

/-- Witness for C8 at a concrete 2 × 1 image and size 32. -/
theorem spec_C8_witness :
    (exif_transpose imgW).width ≤ 32 ∧ (exif_transpose imgW).height ≤ 32 ∧
      noUpscaleSpec R0 imgW 32 :=
  ⟨by decide, by decide, spec_C8 R0 imgW 32 (by decide) (by decide)⟩

/-! ### Claim C2: the cover transform -/

/-- The square actually cropped by `make_square_cover`: the largest centered
square inscribed in the orientation-normalized source, at offsets
`left = (w - side) // 2`, `top = (h - side) // 2` with `side = min w h`. -/
def coverCrop (img : Img) : Img :=
  let img1 := exif_transpose img
  let side := min img1.width img1.height
  let left := ((img1.width : Int) - side).fdiv 2
  let top := ((img1.height : Int) - side).fdiv 2
  crop img1 left top (left + side) (top + side)

/-- The cover transform is exactly: resize the centered inscribed square to
`s × s` with the shared filter `R`, then ensure an alpha-carrying mode. -/
theorem make_square_cover_eq (R : Resample) (img : Img) (s : Nat) :
    make_square_cover R img s =
      if (resizeWith R (coverCrop img) s s).mode = "RGBA"
          ∨ (resizeWith R (coverCrop img) s s).mode = "LA" then
        resizeWith R (coverCrop img) s s
      else convert_RGBA (resizeWith R (coverCrop img) s s) := rfl

/-- The conclusion of claim C2: cover output is exactly `s × s`; the cropped
square has side `min w h` and is read from the source at the stated centered
offsets; every output pixel's color channels come from resampling that crop
with the same filter `R` used by fit mode; the output mode carries an alpha
channel; and if the resampled crop is fully opaque the output carries no
transparent padding anywhere. -/
def coverSpec (R : Resample) (img : Img) (s : Nat) : Prop :=
  (make_square_cover R img s).width = s ∧
  (make_square_cover R img s).height = s ∧
  ((make_square_cover R img s).mode = "RGBA"
    ∨ (make_square_cover R img s).mode = "LA") ∧
  (coverCrop img).width
      = min (exif_transpose img).width (exif_transpose img).height ∧
  (coverCrop img).height
      = min (exif_transpose img).width (exif_transpose img).height ∧
  (∀ x y : Int, (coverCrop img).pix x y
      = (exif_transpose img).pix
          ((((exif_transpose img).width : Int)
              - (min (exif_transpose img).width (exif_transpose img).height : Nat)).fdiv 2
            + x)
          ((((exif_transpose img).height : Int)
              - (min (exif_transpose img).width (exif_transpose img).height : Nat)).fdiv 2
            + y)) ∧
  (∀ x y : Int,
    ((make_square_cover R img s).pix x y).r = (R (coverCrop img) s s x y).r ∧
    ((make_square_cover R img s).pix x y).g = (R (coverCrop img) s s x y).g ∧
    ((make_square_cover R img s).pix x y).b = (R (coverCrop img) s s x y).b) ∧
  ((∀ x y : Int, (R (coverCrop img) s s x y).a = 255) →
    ∀ x y : Int, ((make_square_cover R img s).pix x y).a = 255)

/-- Claim C2: the cover transform crops the largest centered inscribed
square, resizes it to exactly the target size with the same filter as fit
mode, and yields alpha-carrying output with no transparent padding for an
opaque source. -/
theorem spec_C2 (R : Resample) (img : Img) (s : Nat) : coverSpec R img s := by
  refine ⟨?_, ?_, ?_, ?_, ?_, ?_, ?_, ?_⟩
  · rw [make_square_cover_eq]
    split <;> rfl
  · rw [make_square_cover_eq]
    split <;> rfl
  · rw [make_square_cover_eq]
    split
    next hm => exact hm
    next => exact Or.inl rfl
  · simp [coverCrop, crop]
    omega
  · simp [coverCrop, crop]
    omega
  · intro x y
    rfl
  · intro x y
    rw [make_square_cover_eq]
    split <;> exact ⟨rfl, rfl, rfl⟩
  · intro hop x y
    rw [make_square_cover_eq]
    split
    · exact hop x y
    · rfl

/-- Witness for C2 at a concrete image and an opaque resampler. -/
theorem spec_C2_witness :
    coverSpec ROpaque imgW 32 ∧
      (∀ x y : Int, ((make_square_cover ROpaque imgW 32).pix x y).a = 255) :=
  ⟨spec_C2 ROpaque imgW 32,
    (spec_C2 ROpaque imgW 32).2.2.2.2.2.2.2 (fun _ _ => rfl)⟩

/-! ### Sorting lemmas for the selection order -/

theorem lexLe_total : ∀ a b : List Char, lexLe a b = true ∨ lexLe b a = true := by
  intro a
  induction a with
  | nil => intro b; left; rfl
  | cons c cs ih =>
    intro b
    cases b with
    | nil => right; rfl
    | cons d ds =>
      by_cases hcd : c = d
      · subst hcd
        rcases ih ds with h | h
        · left; simpa [lexLe] using h
        · right; simpa [lexLe] using h
      · rcases lt_or_gt_of_ne hcd with h | h
        · left; simp [lexLe, hcd, h]
        · right; simp [lexLe, Ne.symm hcd, h]

theorem lexLe_trans : ∀ a b c : List Char,
    lexLe a b = true → lexLe b c = true → lexLe a c = true := by
  intro a
  induction a with
  | nil => intro b c _ _; rfl
  | cons x xs ih =>
    intro b c hab hbc
    cases b with
    | nil => simp [lexLe] at hab
    | cons y ys =>
      cases c with
      | nil => simp [lexLe] at hbc
      | cons z zs =>
        by_cases hxy : x = y <;> by_cases hyz : y = z
        · subst hxy; subst hyz
          simp only [lexLe, if_pos rfl] at hab hbc ⊢
          exact ih ys zs hab hbc
        · subst hxy
          simp only [lexLe, if_pos rfl, if_neg hyz] at hbc ⊢
          exact hbc
        · subst hyz
          simp only [lexLe, if_pos rfl, if_neg hxy] at hab ⊢
          exact hab
        · simp only [lexLe, if_neg hxy, if_neg hyz, decide_eq_true_eq] at hab hbc
          have hxz : x ≠ z := ne_of_lt (lt_trans hab hbc)
          simp only [lexLe, if_neg hxz, decide_eq_true_eq]
          exact lt_trans hab hbc

theorem nameLe_total (f g : SrcFile) : nameLe f g = true ∨ nameLe g f = true :=
  lexLe_total f.name.data g.name.data

theorem nameLe_trans {f g h : SrcFile} (h1 : nameLe f g = true)
    (h2 : nameLe g h = true) : nameLe f h = true :=
  lexLe_trans f.name.data g.name.data h.name.data h1 h2

theorem mem_insertByName (x : SrcFile) : ∀ (l : List SrcFile) (a : SrcFile),
    a ∈ insertByName x l ↔ a = x ∨ a ∈ l := by
  intro l
  induction l with
  | nil => intro a; simp [insertByName]
  | cons y ys ih =>
    intro a
    unfold insertByName
    split
    · simp
    · simp only [List.mem_cons, ih a]
      tauto

theorem mem_sortByName : ∀ (l : List SrcFile) (a : SrcFile),
    a ∈ sortByName l ↔ a ∈ l := by
  intro l
  induction l with
  | nil => intro a; simp [sortByName]
  | cons y ys ih =>
    intro a
    unfold sortByName
    rw [mem_insertByName, ih]
    simp

theorem pairwise_insertByName (x : SrcFile) : ∀ l : List SrcFile,
    List.Pairwise (fun f g => nameLe f g = true) l →
    List.Pairwise (fun f g => nameLe f g = true) (insertByName x l) := by
  intro l
  induction l with
  | nil => intro _; simp [insertByName]
  | cons y ys ih =>
    intro hp
    rw [List.pairwise_cons] at hp
    obtain ⟨hy, hys⟩ := hp
    unfold insertByName
    split
    next hle =>
      rw [List.pairwise_cons]
      refine ⟨?_, List.pairwise_cons.mpr ⟨hy, hys⟩⟩
      intro b hb
      rcases List.mem_cons.mp hb with rfl | hb'
      · exact hle
      · exact nameLe_trans hle (hy b hb')
    next hle =>
      rw [List.pairwise_cons]
      refine ⟨?_, ih hys⟩
      intro b hb
      rcases (mem_insertByName x ys b).mp hb with rfl | hb'
      · rcases nameLe_total b y with h | h
        · exact absurd h hle
        · exact h
      · exact hy b hb'

theorem pairwise_sortByName : ∀ l : List SrcFile,
    List.Pairwise (fun f g => nameLe f g = true) (sortByName l) := by
  intro l
  induction l with
  | nil => simp [sortByName]
  | cons y ys ih => exact pairwise_insertByName y (sortByName ys) ih

/-! ### Claim C6: file selection, silent skipping and processing order -/

/-- The conclusion of claim C6: a file is selected iff it is an immediate
entry that is a regular file with a case-insensitively supported extension;
the selection is sorted by name; and when the batch runs, the console shows
the header plus exactly one status line per selected file, and all outputs
come from the selected files only. -/
def selectionSpec (R : Resample) (env : Env) (fs : FS) (din dout mode : String) :
    Prop :=
  (∀ f, f ∈ selectImages fs din ↔
    f ∈ fs.entries din ∧ f.isFile = true ∧
      lowerStr (pathSuffix f.name) ∈ SUPPORTED_SUFFIXES) ∧
  List.Pairwise (fun f g => nameLe f g = true) (selectImages fs din) ∧
  (fs.isDir din = true → selectImages fs din ≠ [] →
    (mainWithMode R env fs din dout mode).lines
        = headerLine (selectImages fs din).length din dout mode
          :: (selectImages fs din).map (fun f => (process_image R env din f mode).2) ∧
      (mainWithMode R env fs din dout mode).outputs
        = ((selectImages fs din).map
            (fun f => (process_image R env din f mode).1)).flatten)

/-- Claim C6: the batch driver selects exactly the immediate regular files
with an allow-listed extension (case-insensitive), silently skips the rest,
and processes the selection in lexicographic name order with one status line
per file. -/
theorem spec_C6 (R : Resample) (env : Env) (fs : FS) (din dout mode : String) :
    selectionSpec R env fs din dout mode := by
  refine ⟨?_, ?_, ?_⟩
  · intro f
    unfold selectImages
    rw [mem_sortByName, List.mem_filter]
    simp only [matchesExt, List.contains, Bool.and_eq_true, List.elem_iff]
  · exact pairwise_sortByName _
  · intro hdir hne
    have h := mainWithMode_run R env fs din dout mode hdir hne
    exact ⟨by rw [h], by rw [h]⟩

/-- Witness for C6 at a concrete directory holding one supported file. -/
theorem spec_C6_witness :
    selectionSpec R0 envOk fs0 "in" "out" "fit" ∧
      (fileW ∈ selectImages fs0 "in" ↔
        fileW ∈ fs0.entries "in" ∧ fileW.isFile = true ∧
          lowerStr (pathSuffix fileW.name) ∈ SUPPORTED_SUFFIXES) :=
  ⟨spec_C6 R0 envOk fs0 "in" "out" "fit",
    (spec_C6 R0 envOk fs0 "in" "out" "fit").1 fileW⟩

/-! ### Output-directory semantics: last write wins -/

theorem append_right_cancel_str (st a b : String) (h : st ++ a = st ++ b) :
    a = b := by
  have hd : st.data ++ a.data = st.data ++ b.data := by
    rw [← String.data_append, ← String.data_append, h]
  have := (List.append_right_inj st.data).mp hd
  cases a
  cases b
  exact congrArg String.mk this

theorem outNames_nodup (st : String) : (SIZES.map (outName st)).Nodup := by
  refine List.Nodup.map_on ?_ (by decide : SIZES.Nodup)
  intro x hx y hy hxy
  have htag : sizeTag x = sizeTag y := append_right_cancel_str st _ _ hxy
  simp only [SIZES, List.mem_cons, List.not_mem_nil, or_false] at hx hy
  rcases hx with rfl | rfl | rfl | rfl | rfl | rfl <;>
    rcases hy with rfl | rfl | rfl | rfl | rfl | rfl <;>
    first
      | rfl
      | exact absurd htag (by decide)

theorem upsertDisk_not_mem : ∀ (disk : List (String × Img)) (n : String) (i : Img),
    n ∉ disk.map Prod.fst → upsertDisk disk n i = disk ++ [(n, i)] := by
  intro disk
  induction disk with
  | nil => intro n i _; rfl
  | cons p rest ih =>
    intro n i h
    rcases p with ⟨m, j⟩
    simp only [List.map_cons, List.mem_cons] at h
    push_neg at h
    unfold upsertDisk
    rw [if_neg (Ne.symm h.1), ih n i h.2]
    rfl

theorem upsertDisk_found : ∀ (D : List (String × Img)) (n : String) (i : Img)
    (C : List (String × Img)) (j : Img), n ∉ D.map Prod.fst →
    upsertDisk (D ++ (n, j) :: C) n i = D ++ (n, i) :: C := by
  intro D
  induction D with
  | nil =>
    intro n i C j _
    rw [List.nil_append]
    unfold upsertDisk
    rw [if_pos rfl]
    rfl
  | cons p rest ih =>
    intro n i C j h
    rcases p with ⟨m, jm⟩
    simp only [List.map_cons, List.mem_cons] at h
    push_neg at h
    rw [List.cons_append]
    unfold upsertDisk
    rw [if_neg (Ne.symm h.1), ih n i C j h.2]
    rfl

theorem foldl_upsert_fresh : ∀ (l disk : List (String × Img)),
    (l.map Prod.fst).Nodup → (∀ p ∈ l, p.1 ∉ disk.map Prod.fst) →
    l.foldl (fun d p => upsertDisk d p.1 p.2) disk = disk ++ l := by
  intro l
  induction l with
  | nil => intro disk _ _; simp
  | cons p rest ih =>
    intro disk hnd hfresh
    rcases p with ⟨n, i⟩
    simp only [List.map_cons, List.nodup_cons] at hnd
    simp only [List.foldl_cons]
    rw [upsertDisk_not_mem disk n i (hfresh (n, i) (by simp))]
    rw [ih (disk ++ [(n, i)]) hnd.2 ?fresh]
    · simp
    case fresh =>
      intro q hq
      simp only [List.map_append, List.mem_append, List.map_cons, List.map_nil,
        List.mem_cons, List.not_mem_nil]
      push_neg
      refine ⟨?_, ?_, fun hfalse => hfalse.elim⟩
      · have := hfresh q (by simp [hq])
        exact fun hc => this hc
      · intro hqn
        exact hnd.1 (hqn ▸ List.mem_map_of_mem Prod.fst hq)

theorem foldl_upsert_replace : ∀ (B D C : List (String × Img)),
    B.map Prod.fst = C.map Prod.fst → (C.map Prod.fst).Nodup →
    (∀ p ∈ B, p.1 ∉ D.map Prod.fst) →
    B.foldl (fun d p => upsertDisk d p.1 p.2) (D ++ C) = D ++ B := by
  intro B
  induction B with
  | nil =>
    intro D C hk _ _
    have : C = [] := by
      have := congrArg List.length hk
      simp at this
      exact List.eq_nil_of_length_eq_zero this.symm
    rw [this]
    simp
  | cons p rest ih =>
    intro D C hk hnd hD
    rcases p with ⟨n, i⟩
    cases C with
    | nil => simp at hk
    | cons c C' =>
      rcases c with ⟨m, jm⟩
      simp only [List.map_cons, List.cons.injEq] at hk
      obtain ⟨hnm, hk'⟩ := hk
      subst hnm
      simp only [List.map_cons, List.nodup_cons] at hnd
      simp only [List.foldl_cons]
      rw [upsertDisk_found D n i C' jm (hD (n, i) (by simp))]
      have hsplit : D ++ (n, i) :: C' = (D ++ [(n, i)]) ++ C' := by simp
      rw [hsplit, ih (D ++ [(n, i)]) C' hk' hnd.2 ?fresh]
      · simp
      case fresh =>
        intro q hq
        simp only [List.map_append, List.mem_append, List.map_cons, List.map_nil,
          List.mem_cons, List.not_mem_nil]
        push_neg
        refine ⟨?_, ?_, fun hfalse => hfalse.elim⟩
        · have := hD q (by simp [hq])
          exact fun hc => this hc
        · intro hqn
          apply hnd.1
          rw [← hk', ← hqn]
          exact List.mem_map_of_mem Prod.fst hq

theorem writeAll_overwrite (A B : List (String × Img))
    (hk : A.map Prod.fst = B.map Prod.fst) (hnd : (A.map Prod.fst).Nodup) :
    writeAll (A ++ B) = B := by
  unfold writeAll
  rw [List.foldl_append]
  rw [foldl_upsert_fresh A [] hnd (by simp)]
  have := foldl_upsert_replace B [] A hk.symm hnd (by simp)
  simpa using this

/-! ### Claim C9: same-stem collisions overwrite silently -/

/-- The conclusion of claim C9: two matched same-stem files produce the same
six output names, the batch writes 12 files but the output directory ends up
with only 6 distinct ones — exactly the later file's images — and the
console shows only the header and the two `OK` lines, with no warning. -/
def overwriteSpec (R : Resample) (env : Env) (fs : FS) (din dout mode : String)
    (f g : SrcFile) : Prop :=
  (process_image R env din f mode).1.map Prod.fst
      = (process_image R env din g mode).1.map Prod.fst ∧
  (mainWithMode R env fs din dout mode).outputs.length = 12 ∧
  writeAll (mainWithMode R env fs din dout mode).outputs
      = (process_image R env din g mode).1 ∧
  (writeAll (mainWithMode R env fs din dout mode).outputs).length = 6 ∧
  (mainWithMode R env fs din dout mode).lines
      = [headerLine 2 din dout mode, "OK  : " ++ f.name, "OK  : " ++ g.name]

/-- Claim C9: when the input directory holds exactly two matched files with
equal stems, their output names coincide, the lexicographically later file
overwrites the earlier one's outputs, the directory holds 6 < 12 distinct
files, and no warning is emitted. -/
theorem spec_C9 (R : Resample) (env : Env) (fs : FS) (din dout mode : String)
    (f g : SrcFile) (imgF imgG : Img)
    (hent : fs.entries din = [f, g]) (hdir : fs.isDir din = true)
    (hmf : matchesExt f = true) (hmg : matchesExt g = true)
    (hstem : pathStem f.name = pathStem g.name)
    (hord : nameLe f g = true)
    (hdf : f.decode = Except.ok imgF) (hdg : g.decode = Except.ok imgG)
    (hsave : ∀ n, env.saveErr n = none) :
    overwriteSpec R env fs din dout mode f g := by
  obtain ⟨hfn, hfl⟩ := process_image_ok R env din f mode imgF hdf hsave
  obtain ⟨hgn, hgl⟩ := process_image_ok R env din g mode imgG hdg hsave
  have hsel : selectImages fs din = [f, g] := by
    unfold selectImages
    rw [hent]
    simp [List.filter_cons, hmf, hmg, sortByName, insertByName, hord]
  have hkeys : (process_image R env din f mode).1.map Prod.fst
      = (process_image R env din g mode).1.map Prod.fst := by
    rw [hfn, hgn, hstem]
  have hrun := mainWithMode_run R env fs din dout mode hdir (by rw [hsel]; simp)
  have houts : (mainWithMode R env fs din dout mode).outputs
      = (process_image R env din f mode).1 ++ (process_image R env din g mode).1 := by
    rw [hrun]
    rw [hsel]
    simp
  have hndf : ((process_image R env din f mode).1.map Prod.fst).Nodup := by
    rw [hfn]
    exact outNames_nodup _
  have hlenf : (process_image R env din f mode).1.length = 6 := by
    have := congrArg List.length hfn
    simpa using this
  have hleng : (process_image R env din g mode).1.length = 6 := by
    have := congrArg List.length hgn
    simpa using this
  refine ⟨hkeys, ?_, ?_, ?_, ?_⟩
  · rw [houts]
    simp [hlenf, hleng]
  · rw [houts, writeAll_overwrite _ _ hkeys hndf]
  · rw [houts, writeAll_overwrite _ _ hkeys hndf]
    exact hleng
  · rw [hrun]
    rw [hsel]
    simp [hfl, hgl]

/-- Witness for C9: `photo.jpg` and `photo.png` in one directory. -/
theorem spec_C9_witness :
    pathStem fileW.name = pathStem fileW2.name ∧ nameLe fileW fileW2 = true ∧
      overwriteSpec R0 envOk fs2 "in" "out" "fit" fileW fileW2 :=
  ⟨by decide, by decide,
    spec_C9 R0 envOk fs2 "in" "out" "fit" fileW fileW2 imgW imgW rfl rfl
      (by decide) (by decide) (by decide) (by decide) rfl rfl (fun n => rfl)⟩

/-! ### Claim C4: per-file error isolation -/

/-- The conclusion of claim C4: in the batch phase every matched file yields
exactly one console line, the outputs are the concatenation of the per-file
outputs (so one file's failure cannot affect another file's results), the
exit status is 0 whatever the per-file errors, and a decode error is
reported as `FEHLER bei <path>: <error>`. -/
def perFileErrorSpec (R : Resample) (env : Env) (fs : FS) (din dout mode : String) :
    Prop :=
  (mainWithMode R env fs din dout mode).exitCode = 0 ∧
  (mainWithMode R env fs din dout mode).lines
    = headerLine (selectImages fs din).length din dout mode
      :: (selectImages fs din).map (fun f => (process_image R env din f mode).2) ∧
  (mainWithMode R env fs din dout mode).outputs
    = ((selectImages fs din).map (fun f => (process_image R env din f mode).1)).flatten ∧
  (∀ f e, f.decode = Except.error e →
    (process_image R env din f mode).2
      = "FEHLER bei " ++ din ++ "/" ++ f.name ++ ": " ++ e)

/-- Claim C4: any error while processing one file is caught at that file's
boundary, reported as `FEHLER bei <path>: <error>`, and neither prevents the
other files from being processed nor changes the overall exit status. -/
theorem spec_C4 (R : Resample) (env : Env) (fs : FS) (din dout mode : String)
    (hdir : fs.isDir din = true) (hne : selectImages fs din ≠ []) :
    perFileErrorSpec R env fs din dout mode := by
  have h := mainWithMode_run R env fs din dout mode hdir hne
  exact ⟨by rw [h], by rw [h], by rw [h],
    fun f e hdec => by rw [process_image_decode_error R env din f mode e hdec]⟩

/-- Witness for C4 at a concrete one-file file system. -/
theorem spec_C4_witness :
    fs0.isDir "in" = true ∧ selectImages fs0 "in" ≠ [] ∧
      perFileErrorSpec R0 envOk fs0 "in" "out" "fit" :=
  ⟨rfl, by rw [show selectImages fs0 "in" = [fileW] from rfl]; simp,
    spec_C4 R0 envOk fs0 "in" "out" "fit" rfl
      (by rw [show selectImages fs0 "in" = [fileW] from rfl]; simp)⟩

/-! ### Claim C5: the CLI exit-status mapping -/

/-- The conclusion of claim C5: fewer than two user arguments prints the
usage text and exits 1; an unrecognized mode exits 2; a missing input
directory exits 1 (with or without a valid mode argument); an existing input
directory with no supported files prints a message and exits 0 with no
output written (again with or without a valid mode argument). -/
def cliExitSpec (R : Resample) (fs : FS) (env : Env) : Prop :=
  (∀ argv, argv.length < 3 → main R argv fs env = ⟨1, [docText], []⟩) ∧
  (∀ p din dout marg rest,
    normalizeMode marg ≠ "fit" → normalizeMode marg ≠ "cover" →
    main R (p :: din :: dout :: marg :: rest) fs env = ⟨2, [badModeText], []⟩) ∧
  (∀ p din dout, ¬ fs.isDir din = true →
    (main R [p, din, dout] fs env).exitCode = 1 ∧
    ∀ marg rest, (normalizeMode marg = "fit" ∨ normalizeMode marg = "cover") →
      (main R (p :: din :: dout :: marg :: rest) fs env).exitCode = 1) ∧
  (∀ p din dout, fs.isDir din = true → selectImages fs din = [] →
    main R [p, din, dout] fs env = ⟨0, [noFilesText], []⟩ ∧
    ∀ marg rest, (normalizeMode marg = "fit" ∨ normalizeMode marg = "cover") →
      main R (p :: din :: dout :: marg :: rest) fs env = ⟨0, [noFilesText], []⟩)

/-- Claim C5: the exit-status mapping of `main` holds for every invocation. -/
theorem spec_C5 (R : Resample) (fs : FS) (env : Env) : cliExitSpec R fs env := by
  refine ⟨?_, ?_, ?_, ?_⟩
  · intro argv h
    unfold main
    rw [if_pos h]
  · intro p din dout marg rest h1 h2
    rw [main_four, if_neg (by simp [h1, h2])]
  · intro p din dout hdir
    constructor
    · rw [main_three, mainWithMode_noDir R env fs din dout "fit" hdir]
    · intro marg rest hv
      rw [main_four, if_pos hv,
        mainWithMode_noDir R env fs din dout (normalizeMode marg) hdir]
  · intro p din dout hdir hsel
    constructor
    · rw [main_three, mainWithMode_empty R env fs din dout "fit" hdir hsel]
    · intro marg rest hv
      rw [main_four, if_pos hv,
        mainWithMode_empty R env fs din dout (normalizeMode marg) hdir hsel]

/-- Witness for C5: all four exit paths at concrete invocations, the empty
match set both without and with an explicit mode argument. -/
theorem spec_C5_witness :
    main R0 ["prog"] fs0 envOk = ⟨1, [docText], []⟩ ∧
    main R0 ["prog", "in", "out", "bogus"] fs0 envOk = ⟨2, [badModeText], []⟩ ∧
    (main R0 ["prog", "missing", "out"] fs0 envOk).exitCode = 1 ∧
    main R0 ["prog", "in", "out"] fsEmpty envOk = ⟨0, [noFilesText], []⟩ ∧
    main R0 ["prog", "in", "out", "cover"] fsEmpty envOk = ⟨0, [noFilesText], []⟩ :=
  ⟨(spec_C5 R0 fs0 envOk).1 ["prog"] (by decide),
    (spec_C5 R0 fs0 envOk).2.1 "prog" "in" "out" "bogus" [] (by decide) (by decide),
    ((spec_C5 R0 fs0 envOk).2.2.1 "prog" "missing" "out" (by decide)).1,
    ((spec_C5 R0 fsEmpty envOk).2.2.2 "prog" "in" "out" rfl rfl).1,
    ((spec_C5 R0 fsEmpty envOk).2.2.2 "prog" "in" "out" rfl rfl).2 "cover" []
      (by decide)⟩

/-! ### Claim C7: determinism / idempotence -/

/-- Claim C7: the run is a pure function of the resampling filter, the
argument vector, the file system and the write environment — two runs on
equal inputs produce equal outputs (byte-identical files given the
deterministic filter and encoder the spec assumes). -/
theorem spec_C7 (R : Resample) (argv₁ argv₂ : List String) (fs₁ fs₂ : FS)
    (env₁ env₂ : Env) (hargv : argv₁ = argv₂) (hfs : fs₁ = fs₂)
    (henv : env₁ = env₂) :
    (main R argv₁ fs₁ env₁).outputs = (main R argv₂ fs₂ env₂).outputs ∧
      main R argv₁ fs₁ env₁ = main R argv₂ fs₂ env₂ := by
  subst hargv
  subst hfs
  subst henv
  exact ⟨rfl, rfl⟩

/-- Witness for C7 at a concrete run. -/
theorem spec_C7_witness :
    (main R0 ["prog", "in", "out"] fs0 envOk).outputs
        = (main R0 ["prog", "in", "out"] fs0 envOk).outputs ∧
      main R0 ["prog", "in", "out"] fs0 envOk = main R0 ["prog", "in", "out"] fs0 envOk :=
  spec_C7 R0 _ _ _ _ _ _ rfl rfl rfl

/-! ### Claim C10: case-insensitive mode parsing -/

/-- The mode chain only looks at the lowercased argument. -/
theorem normalizeMode_lower (a b : String) (h : lowerStr a = lowerStr b) :
    normalizeMode a = normalizeMode b := by
  unfold normalizeMode
  rw [h]

/-- Claim C10: the mode argument is lowercased before matching, so any casing
variant behaves exactly like its lowercase form, and an invocation is
rejected with exit status 2 exactly when the argument normalizes to neither
`fit` nor `cover`. -/
theorem spec_C10 (R : Resample) (fs : FS) (env : Env) (p din dout s t : String)
    (rest : List String) (h : lowerStr s = lowerStr t) :
    main R (p :: din :: dout :: s :: rest) fs env
        = main R (p :: din :: dout :: t :: rest) fs env ∧
      ((main R (p :: din :: dout :: s :: rest) fs env).exitCode = 2 ↔
        ¬ (normalizeMode s = "fit" ∨ normalizeMode s = "cover")) := by
  constructor
  · rw [main_four, main_four, normalizeMode_lower s t h]
  · rw [main_four]
    by_cases hv : normalizeMode s = "fit" ∨ normalizeMode s = "cover"
    · rw [if_pos hv]
      simp only [hv, not_true, iff_false]
      exact mainWithMode_exit_ne_two R env fs din dout (normalizeMode s)
    · rw [if_neg hv]
      simp [hv]

/-! ### Claim C3: output count and (lack of) error atomicity -/

theorem length_flatten_const {α : Type} (n : Nat) :
    ∀ ls : List (List α), (∀ x ∈ ls, x.length = n) → ls.flatten.length = n * ls.length := by
  intro ls
  induction ls with
  | nil => simp
  | cons a l ih =>
    intro h
    have ha := h a (by simp)
    have hl := ih (fun x hx => h x (by simp [hx]))
    simp [ha, hl, Nat.mul_succ]
    omega

/-- Counterexample to claim C3 as stated: with a write environment in which
saving the third size (`a_256x256.png`) fails, processing `a.jpg` reports an
error, yet the two outputs written before the failure remain — not zero. -/
theorem counterexample_C3 :
    (process_image R0 envFail256 "in" fileA "fit").2
        = "FEHLER bei in/a.jpg: disk full" ∧
      (process_image R0 envFail256 "in" fileA "fit").1.length = 2 := ⟨rfl, rfl⟩

/-- The conclusion of the amended claim C3: when every matched file decodes
and every save succeeds, the batch phase — for every mode, hence for every
invocation that reaches it, as the two connection conjuncts pin down both
the three-argument (default fit) and four-argument (explicit mode) forms of
`main` — writes exactly `N × 6` outputs named `{stem}_{size}x{size}.png`; a
file whose decode fails produces zero outputs; and in general a file's
outputs are the names for the first `k` sizes completed before its first
error (so an error midway leaves the earlier sizes' outputs in place rather
than none). -/
def batchCountSpec : Prop :=
  (∀ (R : Resample) (env : Env) (fs : FS) (din dout mode : String),
    fs.isDir din = true →
    (∀ f, f ∈ selectImages fs din → ∃ i, f.decode = Except.ok i) →
    (∀ n, env.saveErr n = none) →
    (mainWithMode R env fs din dout mode).outputs.map Prod.fst
        = ((selectImages fs din).map
            (fun f => SIZES.map (outName (pathStem f.name)))).flatten ∧
      (mainWithMode R env fs din dout mode).outputs.length
        = 6 * (selectImages fs din).length) ∧
  (∀ (R : Resample) (env : Env) (fs : FS) (p din dout marg : String)
      (rest : List String),
    (normalizeMode marg = "fit" ∨ normalizeMode marg = "cover") →
    main R (p :: din :: dout :: marg :: rest) fs env
      = mainWithMode R env fs din dout (normalizeMode marg)) ∧
  (∀ (R : Resample) (env : Env) (fs : FS) (p din dout : String),
    main R [p, din, dout] fs env = mainWithMode R env fs din dout "fit") ∧
  (∀ (R : Resample) (env : Env) (dir mode : String) (f : SrcFile) (e : String),
    f.decode = Except.error e → (process_image R env dir f mode).1 = []) ∧
  (∀ (R : Resample) (env : Env) (dir mode : String) (f : SrcFile), ∃ k,
    (process_image R env dir f mode).1.map Prod.fst
      = (SIZES.map (outName (pathStem f.name))).take k)

/-- Claim C3, amended: `N × 6` named outputs on an error-free batch run in
either mode and for both invocation shapes, zero outputs on decode failure,
and a per-size prefix of outputs — not zero — when an error interrupts the
save loop. -/
theorem spec_C3_amended : batchCountSpec := by
  refine ⟨?_, ?_, ?_, ?_, ?_⟩
  · intro R env fs din dout mode hdir hok hsave
    by_cases hsel : selectImages fs din = []
    · rw [mainWithMode_empty R env fs din dout mode hdir hsel, hsel]
      simp
    · rw [mainWithMode_run R env fs din dout mode hdir hsel]
      have hmap : ∀ f ∈ selectImages fs din,
          (process_image R env din f mode).1.map Prod.fst
            = SIZES.map (outName (pathStem f.name)) := by
        intro f hf
        obtain ⟨i, hi⟩ := hok f hf
        exact (process_image_ok R env din f mode i hi hsave).1
      constructor
      · rw [List.map_flatten, List.map_map]
        exact congrArg List.flatten
          (List.map_congr_left fun f hf => hmap f hf)
      · have hlen := length_flatten_const 6
          ((selectImages fs din).map (fun f => (process_image R env din f mode).1))
          (by
            intro x hx
            obtain ⟨f, hf, hfx⟩ := List.mem_map.mp hx
            have hc := congrArg List.length (hmap f hf)
            simp only [List.length_map] at hc
            rw [← hfx, hc]
            rfl)
        simpa using hlen
  · intro R env fs p din dout marg rest hv
    rw [main_four, if_pos hv]
  · intro R env fs p din dout
    exact main_three R fs env p din dout
  · intro R env dir mode f e hdec
    rw [process_image_decode_error R env dir f mode e hdec]
  · intro R env dir mode f
    exact process_image_names_take R env dir f mode

/-- Witness for the amended C3 at concrete runs, exercising cover mode and
an explicit four-argument invocation. -/
theorem spec_C3_amended_witness :
    (mainWithMode R0 envOk fs0 "in" "out" "cover").outputs.length
        = 6 * (selectImages fs0 "in").length ∧
      main R0 ["prog", "in", "out", "cover"] fs0 envOk
        = mainWithMode R0 envOk fs0 "in" "out" (normalizeMode "cover") ∧
      (process_image R0 envOk "in" fileErr "fit").1 = [] :=
  ⟨(spec_C3_amended.1 R0 envOk fs0 "in" "out" "cover" rfl
      (by
        rw [show selectImages fs0 "in" = [fileW] from rfl]
        intro f hf
        rw [List.mem_singleton] at hf
        exact ⟨imgW, by rw [hf]; rfl⟩)
      (fun n => rfl)).2,
    spec_C3_amended.2.1 R0 envOk fs0 "prog" "in" "out" "cover" [] (by decide),
    spec_C3_amended.2.2.2.1 R0 envOk "in" "fit" fileErr
      "cannot identify image file" rfl⟩

/-- Witness for C10: `FIT` behaves exactly like `fit`. -/
theorem spec_C10_witness :
    (main R0 ["prog", "in", "out", "FIT"] fs0 envOk
        = main R0 ["prog", "in", "out", "fit"] fs0 envOk) ∧
      ((main R0 ["prog", "in", "out", "FIT"] fs0 envOk).exitCode = 2 ↔
        ¬ (normalizeMode "FIT" = "fit" ∨ normalizeMode "FIT" = "cover")) :=
  spec_C10 R0 fs0 envOk "prog" "in" "out" "FIT" "fit" [] (by decide)

end ScaleImages
